import Mathlib

/-!
Verification development for the request-classification core of the
devanbenz/rama HTTP proxy toolkit: the URI path matcher
(`src/http/service/web/matcher/path/mod.rs`) and the proxy authority
(`src/http/layer/proxy_auth/auth.rs`).

Strings are modelled as `List Char` (`Str`); Rust's byte-level string
operations are modelled at the character level, which is faithful for the
UTF-8 encoded strings Rust guarantees.  Rust's `str::to_lowercase` and
`str::trim` are modelled by their restriction to ASCII input (where they
agree with `Char.toLower` and the ASCII-whitespace trim below); theorems
quantifying over arbitrary strings are understood over that fragment.
-/

namespace Rama

/-- Strings as character lists. -/
abbrev Str := List Char

/-- Shorthand turning a Lean string literal into the `Str` model. -/
def str (s : String) : Str := s.data

/-- Models Rust `char` ASCII white-space (the `White_Space` code points below
0x80): 0x09..0x0D and 0x20.  Rust's `str::trim` trims by `char::is_whitespace`;
on ASCII input it trims exactly these. -/
def rustIsWhitespace (c : Char) : Bool :=
  (9 ≤ c.toNat && c.toNat ≤ 13) || c.toNat = 32

/-- Drop matching characters from both ends of a list; models Rust's
`str::trim` (with `rustIsWhitespace`) and `str::trim_matches` (with an
equality test). -/
def trimEnds (q : Char → Bool) (l : Str) : Str :=
  ((l.dropWhile q).reverse.dropWhile q).reverse

/-- Models `path.trim()` restricted to ASCII white-space. -/
def rustTrim (l : Str) : Str := trimEnds rustIsWhitespace l

/-- Models `path.trim_matches('/')`. -/
def trimSlashes (l : Str) : Str := trimEnds (· = '/') l

/-- Models Rust `str::split(sep)`: splitting the empty string yields one empty
piece, and consecutive separators yield empty pieces. -/
def splitChar (sep : Char) : Str → List Str
  | [] => [[]]
  | c :: cs =>
    if c = sep then [] :: splitChar sep cs
    else
      match splitChar sep cs with
      | [] => [[c]]
      | s :: rest => (c :: s) :: rest

/-- Models `str::contains(char)`. -/
def containsChar (c : Char) (l : Str) : Bool := l.any (· == c)

/-- Character-level model of Rust `str::to_lowercase` on ASCII input:
`Char.toLower` maps exactly the basic latin capitals to their lower-case
forms and is the identity elsewhere. -/
def lowerStr (l : Str) : Str := l.map Char.toLower

/-- Models Rust `str::eq_ignore_ascii_case`: equal length, and each pair of
characters equal after ASCII case folding (`to_ascii_lowercase`, which at the
character level is `Char.toLower`). -/
def eqIgnoreAsciiCase : Str → Str → Bool
  | [], [] => true
  | a :: as_, b :: bs => (a.toLower == b.toLower) && eqIgnoreAsciiCase as_ bs
  | _, _ => false

/-! ### Percent decoding (`percent_encoding::percent_decode(..).decode_utf8()`) -/

/-- Is the byte an ASCII hexadecimal digit. -/
def isHexByte (b : Nat) : Bool :=
  (48 ≤ b && b ≤ 57) || (97 ≤ b && b ≤ 102) || (65 ≤ b && b ≤ 70)

/-- Value of an ASCII hexadecimal digit byte. -/
def hexVal (b : Nat) : Nat :=
  if 48 ≤ b && b ≤ 57 then b - 48
  else if 97 ≤ b && b ≤ 102 then b - 87
  else b - 55

/-- UTF-8 encoding of one scalar value, as bytes. -/
def utf8EncodeChar (c : Char) : List Nat :=
  let n := c.toNat
  if n < 128 then [n]
  else if n < 2048 then [192 + n / 64, 128 + n % 64]
  else if n < 65536 then [224 + n / 4096, 128 + (n / 64) % 64, 128 + n % 64]
  else [240 + n / 262144, 128 + (n / 4096) % 64, 128 + (n / 64) % 64, 128 + n % 64]

/-- The UTF-8 bytes of a string (Rust's `str::as_bytes`). -/
def utf8Encode (s : Str) : List Nat := (s.map utf8EncodeChar).flatten

/-- Is the byte a UTF-8 continuation byte (0x80..0xBF). -/
def isCont (b : Nat) : Bool := 128 ≤ b && b ≤ 191

/-- Strict UTF-8 decoding of a byte sequence (the validity rules of Rust
`str`: shortest form, no surrogates, max U+10FFFF); `none` on invalid input.
Models `Cow::from(percent_decode(..)).decode_utf8()`'s validation. -/
def utf8Decode : List Nat → Option Str
  | [] => some []
  | b :: rest =>
    if b < 128 then (utf8Decode rest).map (Char.ofNat b :: ·)
    else if 194 ≤ b && b ≤ 223 then
      match rest with
      | b2 :: rest2 =>
        if isCont b2 then
          (utf8Decode rest2).map (Char.ofNat ((b - 192) * 64 + (b2 - 128)) :: ·)
        else none
      | _ => none
    else if 224 ≤ b && b ≤ 239 then
      match rest with
      | b2 :: b3 :: rest3 =>
        let lo2 := if b = 224 then 160 else 128
        let hi2 := if b = 237 then 159 else 191
        if (lo2 ≤ b2 && b2 ≤ hi2) && isCont b3 then
          (utf8Decode rest3).map
            (Char.ofNat ((b - 224) * 4096 + (b2 - 128) * 64 + (b3 - 128)) :: ·)
        else none
      | _ => none
    else if 240 ≤ b && b ≤ 244 then
      match rest with
      | b2 :: b3 :: b4 :: rest4 =>
        let lo2 := if b = 240 then 144 else 128
        let hi2 := if b = 244 then 143 else 191
        if (lo2 ≤ b2 && b2 ≤ hi2) && isCont b3 && isCont b4 then
          (utf8Decode rest4).map
            (Char.ofNat
              ((b - 240) * 262144 + (b2 - 128) * 4096 + (b3 - 128) * 64 + (b4 - 128)) :: ·)
        else none
      | _ => none
    else none

/-- Models the `percent_encoding::percent_decode` iterator over bytes: a `%`
followed by two hex digits is decoded to one byte; otherwise the byte passes
through unchanged (37 is the byte of `%`). -/
def percentDecodeBytes : List Nat → List Nat
  | 37 :: h1 :: h2 :: rest =>
    if isHexByte h1 && isHexByte h2 then
      (hexVal h1 * 16 + hexVal h2) :: percentDecodeBytes rest
    else 37 :: percentDecodeBytes (h1 :: h2 :: rest)
  | b :: rest => b :: percentDecodeBytes rest
  | [] => []

/-- Models `percent_decode(segment.as_bytes()).decode_utf8().map(to_string)
.unwrap_or_else(|_| segment.to_owned())` from `matches_path`'s `Param` arm. -/
def percentDecode (segment : Str) : Str :=
  match utf8Decode (percentDecodeBytes (utf8Encode segment)) with
  | some s => s
  | none => segment

/-! ### The path matcher (`src/http/service/web/matcher/path/mod.rs`) -/

/-- One fragment of a compiled route pattern (`enum PathFragment`). -/
inductive PathFragment where
  | literal (s : Str)
  | param (name : Str)
  | glob
deriving DecidableEq, Repr

/-- A compiled route matcher (`enum PathMatcher`). -/
inductive PathMatcher where
  | literal (s : Str)
  | fragmentList (fragments : List PathFragment)
deriving DecidableEq, Repr

/-- Parameters extracted by a successful match (`struct UriParams`); the
`HashMap<String, String>` is modelled as an association list whose `insert`
overwrites the entry for an existing key. -/
structure UriParams where
  params : Option (List (Str × Str)) := none
  glob : Option Str := none
deriving DecidableEq, Repr

/-- Insert into an association list, overwriting an existing binding
(`HashMap::insert`). -/
def assocSet : List (Str × Str) → Str → Str → List (Str × Str)
  | [], k, v => [(k, v)]
  | (k', v') :: rest, k, v =>
    if k' = k then (k, v) :: rest else (k', v') :: assocSet rest k v

/-- Models `UriParams::insert`: materialise the map on first use, then
insert. -/
def UriParams.insert (u : UriParams) (name value : Str) : UriParams :=
  { u with params := some (assocSet (u.params.getD []) name value) }

/-- Models `UriParams::get`. -/
def UriParams.get (u : UriParams) (name : Str) : Option Str :=
  u.params.bind fun ps => (ps.lookup name)

/-- Models `UriParams::append_glob`: starts the capture with a leading `/`,
and joins later segments with `/`. -/
def UriParams.append_glob (u : UriParams) (value : Str) : UriParams :=
  match u.glob with
  | some g => { u with glob := some (g ++ '/' :: value) }
  | none => { u with glob := some ('/' :: value) }

/-- Classification of one non-empty pattern token inside `PathFilter::new`'s
`filter_map` closure: `:`-prefixed tokens become `Param`, a `*` in last
position becomes `Glob`, everything else a lower-cased `Literal`. -/
def classifyToken (count : Nat) (index : Nat) (s : Str) : Option PathFragment :=
  if s = [] then none
  else if s.headD ' ' = ':' then
    some (.param (lowerStr (s.dropWhile (· = ':'))))
  else if s = ['*'] && index = count - 1 then
    some .glob
  else
    some (.literal (lowerStr s))

/-- Models `PathFilter::new`: trim white-space and slashes; a pattern without
`:` and `*` compiles to a lower-cased `Literal`; otherwise split on `/`,
discard empty tokens, and classify each token. -/
def PathFilter.new (path : Str) : PathMatcher :=
  let path := trimSlashes (rustTrim path)
  if !(containsChar ':' path || containsChar '*' path) then
    .literal (lowerStr path)
  else
    let pathParts := (splitChar '/' path).filter (fun s => !s.isEmpty)
    let fragmentLength := pathParts.length
    if fragmentLength = 1 && (pathParts.headD []).isEmpty then
      .fragmentList [.glob]
    else
      .fragmentList
        (pathParts.enum.filterMap fun p => classifyToken fragmentLength p.1 p.2)

/-- The lock-step walk of path segments and pattern fragments inside
`matches_path`: the source zips both iterators padded with `None`; the four
`match` arms translate to the four cases below (a missing side is an
exhausted list). -/
def matchFragments : List Str → List PathFragment → UriParams → Option UriParams
  | segment :: segments, fragment :: fragments, params =>
    match fragment with
    | .literal lit =>
      if eqIgnoreAsciiCase lit segment then matchFragments segments fragments params
      else none
    | .param name =>
      if segment.isEmpty then none
      else matchFragments segments fragments (params.insert name (percentDecode segment))
    | .glob => matchFragments segments fragments (params.append_glob segment)
  | [], [], params => some params
  | segment :: segments, [], params =>
    match params.glob with
    | some _ => matchFragments segments [] (params.append_glob segment)
    | none => none
  | [], _ :: _, _ => none

/-- Models `PathFilter::matches_path`. -/
def PathFilter.matches_path (m : PathMatcher) (path : Str) : Option UriParams :=
  let path := trimSlashes (rustTrim path)
  match m with
  | .literal lit =>
    if eqIgnoreAsciiCase lit path then some {} else none
  | .fragmentList fragments =>
    matchFragments (splitChar '/' path) fragments {}

/-- The non-empty tokens of a pattern, as computed by `PathFilter::new`'s
`path_parts`: split the trimmed pattern on `/` and discard empty tokens. -/
def pathTokens (p : Str) : List Str :=
  (splitChar '/' (trimSlashes (rustTrim p))).filter (fun s => !s.isEmpty)

/-- Follows the spec's words for the claimed literal matching criterion
(C5): "the candidate path, after trimming leading/trailing '/', is
case-insensitively equal to the pattern trimmed of leading/trailing '/'",
with no white-space trimming. -/
def specLiteralMatch (pattern path : Str) : Bool :=
  eqIgnoreAsciiCase (trimSlashes pattern) (trimSlashes path)

/-! ### Parameter projection (`UriParams::deserialize`) -/

/-- Models `de::PathDeserializationError`'s `ErrorKind`: the structural
`NoParams` variant produced in `UriParams::deserialize`, and the field-level
conversion errors produced by the deserializer.  The `de` module itself is
not under `src/`; its error shape is modelled from the spec (§4.3). -/
inductive PathDeserializationError where
  | noParams
  | fieldError (message : Str)
deriving DecidableEq, Repr

/-- Models the public wrapper `UriParamsDeserializeError`. -/
structure UriParamsDeserializeError where
  kind : PathDeserializationError
deriving DecidableEq, Repr

/-- Modelled from the spec: the field-by-field projection performed by
`de::PathDeserializer` together with `T::deserialize` (the `de` module and the
serde framework are not under `src/`).  It consumes the flat string map and
either produces a value of the target type or a field-level conversion error
(§4.3); it never produces `NoParams`. -/
def SpecProjection (T : Type) : Type := List (Str × Str) → Except Str T

/-- Models `UriParams::deserialize`: a structurally absent map yields
`NoParams`; a present map is handed to the projection, whose field-level
errors are wrapped and propagated. -/
def UriParams.deserialize {T : Type} (proj : SpecProjection T) (u : UriParams) :
    Except UriParamsDeserializeError T :=
  (match u.params with
   | some ps => (proj ps).mapError PathDeserializationError.fieldError
   | none => Except.error PathDeserializationError.noParams).mapError
    UriParamsDeserializeError.mk

/-- Does a projection result carry the `NoParams` error. -/
def isNoParamsError {T : Type} : Except UriParamsDeserializeError T → Bool
  | .error e => e.kind = .noParams
  | .ok _ => false

/-! ### The proxy authority (`src/http/layer/proxy_auth/auth.rs`) -/

/-- The external `Basic` credential pair (`headers::authorization::Basic`):
a username and a password, compared field-wise. -/
structure Basic where
  username : Str
  password : Str
deriving DecidableEq, Repr

/-- The `ProxyFilter` metadata extracted from a username (its definition is
not under `src/`; per the spec it is a struct of optional directive fields,
e.g. a country code). -/
structure ProxyFilter where
  country : Option Str := none
deriving DecidableEq, Repr

/-- The slice of the type-indexed `Extensions` store touched by this core:
one live value per type, a later insert of the same type overwrites.  The
`probe` field stands for any further type an instrumented authority
implementation may insert (used to observe evaluation order). -/
structure Extensions where
  basic : Option Basic := none
  filter : Option ProxyFilter := none
  probe : Option Nat := none
deriving DecidableEq, Repr

/-- Models `ext.insert::<Basic>`. -/
def Extensions.insertBasic (e : Extensions) (b : Basic) : Extensions :=
  { e with basic := some b }

/-- Models `ext.insert::<ProxyFilter>`. -/
def Extensions.insertFilter (e : Extensions) (f : ProxyFilter) : Extensions :=
  { e with filter := some f }

/-- Models `ext.insert::<Nat>` for the probe slot. -/
def Extensions.insertProbe (e : Extensions) (n : Nat) : Extensions :=
  { e with probe := some n }

/-- Modelled from the spec: one directive of the username filter grammar
(§4.4), `key=value` with the closed set of recognized keys containing the
country-code key; unrecognized directives yield nothing. -/
def parseDirective (d : Str) : Option Str :=
  if d.take 8 = str "country=" then some (d.drop 8) else none

/-- Modelled from the spec: `UsernameConfig::from_str` (`crate::proxy`, not
under `src/`).  Per §4.4 the parse splits on the first occurrence of the
delimiter; with no delimiter the parse is inert (the `Err(_)` taken by the
callers' fallback arm, modelled as `none`); otherwise the left part is the
plain username and the right part is tokenized on `,` into directives,
unrecognized directives being dropped; metadata is absent when no directive
set a field. -/
def parseUsernameConfig (delim : Char) (raw : Str) : Option (Str × Option ProxyFilter) :=
  if containsChar delim raw then
    let plain := raw.takeWhile (· ≠ delim)
    let rest := (raw.dropWhile (· ≠ delim)).drop 1
    let country :=
      (splitChar ',' rest).foldl
        (fun acc d => match parseDirective d with
          | some v => some v
          | none => acc)
        none
    some (plain, country.map fun cc => { country := some cc })
  else none

/-- One synchronous authority with the credential type fixed to `Basic`: the
shape of `ProxyAuthoritySync::authorized(&self, ext, credentials)` with
`self` applied, returning the boolean verdict and the updated extensions. -/
def AuthSync : Type := Basic → Extensions → Bool × Extensions

/-- Models `impl ProxyAuthoritySync<Basic, ()> for Basic` (lines 47-56). -/
def authorizedBasicNoFilter (stored : Basic) : AuthSync := fun credentials ext =>
  if stored = credentials then (true, ext.insertBasic stored) else (false, ext)

/-- Models `impl ProxyAuthoritySync<Basic, UsernameConfig<C>> for Basic`
(lines 58-89): password first, then the username filter grammar with the
exact-match fallback when the parse is inert. -/
def authorizedBasicWithFilter (delim : Char) (stored : Basic) : AuthSync :=
  fun credentials ext =>
  if credentials.password ≠ stored.password then (false, ext)
  else
    match parseUsernameConfig delim credentials.username with
    | none =>
      if stored = credentials then (true, ext.insertBasic stored) else (false, ext)
    | some (username, filter) =>
      if username ≠ stored.username then (false, ext)
      else
        let ext := match filter with
          | some f => ext.insertFilter f
          | none => ext
        (true, ext.insertBasic { username := username, password := credentials.password })

/-- Models `impl ProxyAuthoritySync<Basic, ()>` for the borrowed and owned
string pairs (lines 91-100 and 135-144, which differ only in ownership). -/
def authorizedPairNoFilter (u p : Str) : AuthSync := fun credentials ext =>
  if u = credentials.username && p = credentials.password then
    (true, ext.insertBasic { username := u, password := p })
  else (false, ext)

/-- Models `impl ProxyAuthoritySync<Basic, UsernameConfig<C>>` for the
borrowed and owned string pairs (lines 102-133 and 146-177). -/
def authorizedPairWithFilter (delim : Char) (u p : Str) : AuthSync :=
  fun credentials ext =>
  if credentials.password ≠ p then (false, ext)
  else
    match parseUsernameConfig delim credentials.username with
    | none =>
      if u = credentials.username && p = credentials.password then
        (true, ext.insertBasic { username := u, password := p })
      else (false, ext)
    | some (username, filter) =>
      if username ≠ u then (false, ext)
      else
        let ext := match filter with
          | some f => ext.insertFilter f
          | none => ext
        (true, ext.insertBasic { username := username, password := credentials.password })

/-- Models the two-element instance of `impl_proxy_auth_sync_tuple`
(lines 179-200): the macro joins the element calls with Rust's `||`
operator, which evaluates left to right and stops at the first `true`. -/
def tupleAuth2 (t1 t2 : AuthSync) : AuthSync := fun credentials ext =>
  let r1 := t1 credentials ext
  if r1.1 then (true, r1.2) else t2 credentials r1.2

/-- Models the three-element instance of `impl_proxy_auth_sync_tuple`:
`a || b || c` over the three element calls. -/
def tupleAuth3 (t1 t2 t3 : AuthSync) : AuthSync := fun credentials ext =>
  let r1 := t1 credentials ext
  if r1.1 then (true, r1.2) else tupleAuth2 t2 t3 credentials r1.2

/-- Models `impl ProxyAuthoritySync for Vec<T>` (lines 202-210):
`self.iter().any(|t| t.authorized(ext, credentials))`, which scans in order
and stops at the first success. -/
def vecAuth : List AuthSync → AuthSync
  | [], _, ext => (false, ext)
  | t :: rest, credentials, ext =>
    let r := t credentials ext
    if r.1 then (true, r.2) else vecAuth rest credentials r.2

/-- Follows the spec's words for the tuple composition (§4.5): logical OR
over all elements, "evaluated eagerly over every element (not
short-circuited) so every element has a chance to populate context". -/
def specEagerTuple2 (t1 t2 : AuthSync) : AuthSync := fun credentials ext =>
  let r1 := t1 credentials ext
  let r2 := t2 credentials r1.2
  (r1.1 || r2.1, r2.2)

/-- An instrumented authority implementation: a legal implementation of the
synchronous trait that rejects every credential but records that it was
probed by bumping a counter stored in the extensions (the spec's own
"side-channel counter" test device, §8). -/
def probeAuth : AuthSync := fun _ ext =>
  (false, ext.insertProbe (ext.probe.getD 0 + 1))

/-- One stored primitive credential record of `auth.rs`: a `Basic` value or a
string pair, with `L = ()` or `L = UsernameConfig<C>`. -/
inductive PrimAuth where
  | basicNoFilter (stored : Basic)
  | basicWithFilter (delim : Char) (stored : Basic)
  | pairNoFilter (u p : Str)
  | pairWithFilter (delim : Char) (u p : Str)
deriving DecidableEq, Repr

/-- The authorized check of a primitive record. -/
def PrimAuth.run : PrimAuth → AuthSync
  | .basicNoFilter stored => authorizedBasicNoFilter stored
  | .basicWithFilter delim stored => authorizedBasicWithFilter delim stored
  | .pairNoFilter u p => authorizedPairNoFilter u p
  | .pairWithFilter delim u p => authorizedPairWithFilter delim u p

/-- An authority record as enumerated by the claims: a primitive credential
record, or a tuple or vector composition of primitive records. -/
inductive AuthorityRecord where
  | prim (a : PrimAuth)
  | tuple (elems : List PrimAuth)
  | vec (elems : List PrimAuth)
deriving DecidableEq, Repr

/-- The authorized check of an authority record; tuples are joined by Rust's
short-circuiting `||` and vectors by `Iterator::any`, which coincide as the
sequential short-circuit scan `vecAuth`. -/
def AuthorityRecord.run : AuthorityRecord → AuthSync
  | .prim a => a.run
  | .tuple l => vecAuth (l.map PrimAuth.run)
  | .vec l => vecAuth (l.map PrimAuth.run)

/-! ### Helper lemmas -/

theorem char_toNat_ofNat_lt {n : Nat} (h : n < 55296) : (Char.ofNat n).toNat = n := by
  rw [Char.ofNat, dif_pos (Or.inl h : n.isValidChar)]
  rfl

theorem char_toNat_inj {a b : Char} (h : a.toNat = b.toNat) : a = b := by
  have ha := Char.ofNat_toNat a
  rw [h, Char.ofNat_toNat b] at ha
  exact ha.symm

theorem toLower_def (c : Char) :
    c.toLower = if 65 ≤ c.toNat ∧ c.toNat ≤ 90 then Char.ofNat (c.toNat + 32) else c :=
  rfl

theorem toLower_toNat (c : Char) :
    c.toLower.toNat = if 65 ≤ c.toNat ∧ c.toNat ≤ 90 then c.toNat + 32 else c.toNat := by
  rw [toLower_def]
  split
  case isTrue h => exact char_toNat_ofNat_lt (by omega)
  case isFalse h => rfl

theorem toLower_eq_self {c : Char} (h : ¬(65 ≤ c.toNat ∧ c.toNat ≤ 90)) :
    c.toLower = c := by
  rw [toLower_def, if_neg h]

theorem toLower_toLower (c : Char) : c.toLower.toLower = c.toLower := by
  by_cases h : 65 ≤ c.toNat ∧ c.toNat ≤ 90
  · refine toLower_eq_self ?_
    rw [toLower_toNat, if_pos h]
    omega
  · rw [toLower_eq_self h, toLower_eq_self h]

theorem eqIgnoreAsciiCase_lowerStr_left (a b : Str) :
    eqIgnoreAsciiCase (lowerStr a) b = eqIgnoreAsciiCase a b := by
  induction a generalizing b with
  | nil => cases b <;> rfl
  | cons x xs ih =>
    cases b with
    | nil => rfl
    | cons y ys =>
      simp only [lowerStr, List.map_cons, eqIgnoreAsciiCase, toLower_toLower]
      rw [← lowerStr, ih]

theorem toLower_eq_star {c : Char} : c.toLower = '*' ↔ c = '*' := by
  constructor
  · intro h
    by_cases hu : 65 ≤ c.toNat ∧ c.toNat ≤ 90
    · exfalso
      have hn := toLower_toNat c
      rw [if_pos hu, h] at hn
      have h42 : ('*').toNat = 42 := rfl
      omega
    · rwa [toLower_eq_self hu] at h
  · intro h
    subst h
    rfl

theorem eqIgnoreAsciiCase_star {s : Str} :
    eqIgnoreAsciiCase (str "*") s = true ↔ s = str "*" := by
  cases s with
  | nil => simp [eqIgnoreAsciiCase, str]
  | cons y ys =>
    cases ys with
    | nil =>
      show ((('*').toLower == y.toLower) && eqIgnoreAsciiCase [] []) = true ↔ _
      simp only [eqIgnoreAsciiCase, Bool.and_true, beq_iff_eq, str]
      constructor
      · intro h
        have : y.toLower = '*' := by rw [← h]; rfl
        rw [toLower_eq_star.mp this]
      · intro h
        cases h
        rfl
    | cons z zs => simp [eqIgnoreAsciiCase, str]

theorem trimEnds_sublist (q : Char → Bool) (l : Str) : (trimEnds q l).Sublist l := by
  unfold trimEnds
  have h1 : (l.dropWhile q).Sublist l := List.dropWhile_sublist q
  have h2 : ((l.dropWhile q).reverse.dropWhile q).Sublist (l.dropWhile q).reverse :=
    List.dropWhile_sublist q
  have h3 := h2.reverse
  rw [List.reverse_reverse] at h3
  exact h3.trans h1

theorem mem_of_mem_trimEnds {q : Char → Bool} {l : Str} {c : Char}
    (h : c ∈ trimEnds q l) : c ∈ l :=
  (trimEnds_sublist q l).mem h

theorem containsChar_eq_false_iff {c : Char} {l : Str} :
    containsChar c l = false ↔ c ∉ l := by
  simp only [containsChar, Bool.eq_false_iff, ne_eq, List.any_eq_true, beq_iff_eq, not_exists,
    not_and]
  constructor
  · intro h hmem
    exact h c hmem rfl
  · intro h x hx hxc
    exact h (hxc ▸ hx)

theorem containsChar_trim_false {c : Char} {l : Str}
    (h : containsChar c l = false) :
    containsChar c (trimSlashes (rustTrim l)) = false := by
  rw [containsChar_eq_false_iff] at h ⊢
  intro hmem
  exact h (mem_of_mem_trimEnds (mem_of_mem_trimEnds hmem))

theorem mem_of_mem_splitChar {sep : Char} :
    ∀ {l s : Str}, s ∈ splitChar sep l → ∀ {c : Char}, c ∈ s → c ∈ l := by
  intro l
  induction l with
  | nil =>
    intro s hs c hc
    simp only [splitChar, List.mem_singleton] at hs
    subst hs
    exact absurd hc (List.not_mem_nil c)
  | cons a cs ih =>
    intro s hs c hc
    simp only [splitChar] at hs
    by_cases ha : a = sep
    · rw [if_pos ha] at hs
      rcases List.mem_cons.mp hs with h | h
      · subst h
        exact absurd hc (List.not_mem_nil c)
      · exact List.mem_cons_of_mem a (ih h hc)
    · rw [if_neg ha] at hs
      rcases hr : splitChar sep cs with _ | ⟨s', rest⟩
      · rw [hr] at hs
        simp only [List.mem_singleton] at hs
        subst hs
        rcases List.mem_singleton.mp hc with rfl
        exact List.mem_cons_self c cs
      · rw [hr] at hs
        rcases List.mem_cons.mp hs with h | h
        · subst h
          rcases List.mem_cons.mp hc with rfl | h'
          · exact List.mem_cons_self c cs
          · refine List.mem_cons_of_mem a (ih ?_ h')
            rw [hr]
            exact List.mem_cons_self s' rest
        · refine List.mem_cons_of_mem a (ih ?_ hc)
          rw [hr]
          exact List.mem_cons_of_mem s' h

theorem matchFragments_nil_cons (f : PathFragment) (fs : List PathFragment) (u : UriParams) :
    matchFragments [] (f :: fs) u = none :=
  rfl

theorem matchFragments_param_empty :
    ∀ (i : Nat) (segments : List Str) (fragments : List PathFragment) (u : UriParams)
      (name : Str),
      fragments[i]? = some (.param name) → segments[i]? = some [] →
      matchFragments segments fragments u = none := by
  intro i
  induction i with
  | zero =>
    intro segments fragments u name hf hs
    cases fragments with
    | nil => simp at hf
    | cons f fs =>
      cases segments with
      | nil => simp at hs
      | cons s segs =>
        simp only [List.getElem?_cons_zero, Option.some.injEq] at hf hs
        subst hf
        subst hs
        rfl
  | succ n ih =>
    intro segments fragments u name hf hs
    cases fragments with
    | nil => simp at hf
    | cons f fs =>
      cases segments with
      | nil => simp at hs
      | cons s segs =>
        simp only [List.getElem?_cons_succ] at hf hs
        cases f with
        | literal lit =>
          simp only [matchFragments]
          split
          · exact ih segs fs u name hf hs
          · rfl
        | param pname =>
          simp only [matchFragments]
          split
          · rfl
          · exact ih segs fs _ name hf hs
        | glob =>
          simp only [matchFragments]
          exact ih segs fs _ name hf hs

theorem prim_run_false {a : PrimAuth} {c : Basic} {e e' : Extensions}
    (h : a.run c e = (false, e')) : e' = e := by
  cases a <;>
    simp only [PrimAuth.run, authorizedBasicNoFilter, authorizedBasicWithFilter,
      authorizedPairNoFilter, authorizedPairWithFilter] at h <;>
    (repeat' split at h) <;> simp_all

theorem prim_run_fst_indep (a : PrimAuth) (c : Basic) (e₁ e₂ : Extensions) :
    (a.run c e₁).1 = (a.run c e₂).1 := by
  cases a <;>
    simp only [PrimAuth.run, authorizedBasicNoFilter, authorizedBasicWithFilter,
      authorizedPairNoFilter, authorizedPairWithFilter] <;>
    (repeat' split) <;> simp_all

theorem vecAuth_prim_false {l : List PrimAuth} {c : Basic} {e e' : Extensions}
    (h : vecAuth (l.map PrimAuth.run) c e = (false, e')) : e' = e := by
  induction l generalizing e with
  | nil =>
    simp only [List.map_nil, vecAuth, Prod.mk.injEq] at h
    exact h.2.symm
  | cons a rest ih =>
    simp only [List.map_cons, vecAuth] at h
    split at h
    · simp at h
    case isFalse hfalse =>
      have hzero : (a.run c e).1 = false := Bool.eq_false_iff.mpr hfalse
      have hpair : a.run c e = (false, (a.run c e).2) := by
        rw [← hzero]
      have hpres : (a.run c e).2 = e := prim_run_false hpair
      rw [hpres] at h
      exact ih h

theorem vecAuth_prim_fst (l : List PrimAuth) (c : Basic) (e : Extensions) :
    (vecAuth (l.map PrimAuth.run) c e).1 = l.any fun a => (a.run c e).1 := by
  induction l generalizing e with
  | nil => rfl
  | cons a rest ih =>
    simp only [List.map_cons, vecAuth, List.any_cons]
    split
    case isTrue htrue => simp [htrue]
    case isFalse hfalse =>
      have hzero : (a.run c e).1 = false := Bool.eq_false_iff.mpr hfalse
      have hpair : a.run c e = (false, (a.run c e).2) := by rw [← hzero]
      have hpres : (a.run c e).2 = e := prim_run_false hpair
      rw [hpres, ih, hzero, Bool.false_or]

theorem vecAuth_prim_first_success {l₁ : List PrimAuth} {t : PrimAuth}
    (l₂ : List PrimAuth) {c : Basic} {e : Extensions}
    (hfail : ∀ u ∈ l₁, (u.run c e).1 = false) (hsucc : (t.run c e).1 = true) :
    vecAuth ((l₁ ++ t :: l₂).map PrimAuth.run) c e = (true, (t.run c e).2) := by
  induction l₁ generalizing e with
  | nil =>
    simp only [List.nil_append, List.map_cons, vecAuth]
    rw [if_pos hsucc]
  | cons a rest ih =>
    simp only [List.cons_append, List.map_cons, vecAuth]
    have hafalse : (a.run c e).1 = false := hfail a (List.mem_cons_self a rest)
    rw [if_neg (by simp [hafalse])]
    have hpair : a.run c e = (false, (a.run c e).2) := by rw [← hafalse]
    have hpres : (a.run c e).2 = e := prim_run_false hpair
    rw [hpres]
    exact ih (fun u hu => hfail u (List.mem_cons_of_mem a hu)) hsucc

theorem containsChar_eq_true_iff {c : Char} {l : Str} :
    containsChar c l = true ↔ c ∈ l := by
  simp only [containsChar, List.any_eq_true, beq_iff_eq]
  constructor
  · rintro ⟨x, hx, rfl⟩
    exact hx
  · intro h
    exact ⟨c, h, rfl⟩

theorem filterMap_getElem?_of_forall_isSome {α β : Type} (f : α → Option β) :
    ∀ (l : List α), (∀ a ∈ l, (f a).isSome) → ∀ i : Nat,
      (l.filterMap f)[i]? = l[i]?.bind f := by
  intro l
  induction l with
  | nil => intro _ i; simp
  | cons a rest ih =>
    intro h i
    obtain ⟨b, hb⟩ := Option.isSome_iff_exists.mp (h a (List.mem_cons_self a rest))
    rw [List.filterMap_cons_some hb]
    cases i with
    | zero => simp [hb]
    | succ n =>
      simp only [List.getElem?_cons_succ]
      exact ih (fun x hx => h x (List.mem_cons_of_mem a hx)) n

theorem classifyToken_isSome {n i : Nat} {s : Str} (h : s ≠ []) :
    (classifyToken n i s).isSome := by
  simp only [classifyToken, if_neg h]
  split
  · rfl
  · split <;> rfl

/-! ### Claims -/

/-- C3 (counterexample): the claim states that matching pattern
"/assets/*" against path "/assets" succeeds with an absent glob; the code's
catch-all arm `_ => return None` fires on (segment absent, fragment
present) even when the remaining fragment is a `Glob` with zero consumed
segments, so the match in fact fails. -/
theorem glob_zero_segments_counterexample :
    PathFilter.matches_path (PathFilter.new (str "/assets/*")) (str "/assets") = none := by
  decide

/-- C3 (amended): when the path segments are exhausted while at least one
pattern fragment remains — including a trailing `Glob` that has consumed
zero segments — matching fails and returns none; in particular pattern
"/assets/*" against path "/assets" returns none. -/
theorem path_exhausted_mismatch :
    (∀ (f : PathFragment) (fs : List PathFragment) (u : UriParams),
      matchFragments [] (f :: fs) u = none)
  ∧ PathFilter.matches_path (PathFilter.new (str "/assets/*")) (str "/assets") = none :=
  ⟨fun _ _ _ => rfl, by decide⟩

/-- C5 (counterexample): the claim's criterion — case-insensitive equality
after trimming only slashes — disagrees with the code on candidate " foo"
(leading space) against pattern "foo": the code trims white-space first and
matches, while the claimed criterion rejects. -/
theorem literal_match_trim_counterexample :
    PathFilter.matches_path (PathFilter.new (str "foo")) (str " foo") = some {}
  ∧ specLiteralMatch (str "foo") (str " foo") = false := by
  constructor <;> decide

/-- C5 (amended): a pattern containing neither ':' nor '*' compiles to a
`Literal` matcher holding the lower-cased pattern trimmed of white-space and
slashes, and matching a candidate succeeds with empty extracted params
exactly when candidate and pattern, each trimmed of leading/trailing
white-space and then of leading/trailing '/', are ASCII-case-insensitively
equal (the embedding models Rust's `to_lowercase`/`trim` on ASCII input). -/
theorem literal_fast_path (p c : Str)
    (hcolon : containsChar ':' p = false) (hstar : containsChar '*' p = false) :
    PathFilter.new p = .literal (lowerStr (trimSlashes (rustTrim p)))
  ∧ (PathFilter.matches_path (PathFilter.new p) c = some {} ↔
      eqIgnoreAsciiCase (trimSlashes (rustTrim p)) (trimSlashes (rustTrim c)) = true) := by
  have hc1 := containsChar_trim_false hcolon
  have hc2 := containsChar_trim_false hstar
  have hnew : PathFilter.new p = .literal (lowerStr (trimSlashes (rustTrim p))) := by
    simp only [PathFilter.new, hc1, hc2, Bool.or_self, Bool.not_false, if_true]
  refine ⟨hnew, ?_⟩
  rw [hnew]
  simp only [PathFilter.matches_path, eqIgnoreAsciiCase_lowerStr_left]
  split
  case isTrue h => simp [h]
  case isFalse h => simp [h]

/-- C5 (witness for the amended claim): pattern "foo" against candidate
"/FOO/". -/
theorem literal_fast_path_witness :
    containsChar ':' (str "foo") = false
  ∧ (PathFilter.new (str "foo") = .literal (lowerStr (trimSlashes (rustTrim (str "foo"))))
  ∧ (PathFilter.matches_path (PathFilter.new (str "foo")) (str "/FOO/") = some {} ↔
      eqIgnoreAsciiCase (trimSlashes (rustTrim (str "foo")))
        (trimSlashes (rustTrim (str "/FOO/"))) = true)) :=
  ⟨by decide, literal_fast_path (str "foo") (str "/FOO/") (by decide) (by decide)⟩

/-- C6: glob capture is order-preserving and slash-joined with a leading
'/': "/assets/*" against "/assets/css/reset.css" yields glob
"/css/reset.css" and no named params, and "/assets/:local/*" against
"/assets/eu/css/reset.css" yields params {local: "eu"} and glob
"/css/reset.css". -/
theorem glob_capture_examples :
    PathFilter.matches_path (PathFilter.new (str "/assets/*"))
      (str "/assets/css/reset.css")
      = some { params := none, glob := some (str "/css/reset.css") }
  ∧ PathFilter.matches_path (PathFilter.new (str "/assets/:local/*"))
      (str "/assets/eu/css/reset.css")
      = some { params := some [(str "local", str "eu")],
               glob := some (str "/css/reset.css") } := by
  constructor <;> decide

/-- C7: a `Param` fragment never captures an empty path segment: whenever
the fragment at a position is a `Param` and the path segment at the same
position is empty, the walk returns none; in particular pattern "/:x"
against path "/" yields none. -/
theorem param_rejects_empty_segment :
    (∀ (segments : List Str) (fragments : List PathFragment) (u : UriParams)
      (i : Nat) (name : Str),
      fragments[i]? = some (.param name) → segments[i]? = some [] →
      matchFragments segments fragments u = none)
  ∧ PathFilter.matches_path (PathFilter.new (str "/:x")) (str "/") = none :=
  ⟨fun segments fragments u i name hf hs =>
    matchFragments_param_empty i segments fragments u name hf hs, by decide⟩

/-- C7 (witness): the general part applied at pattern fragment list
[Param "x"] and segment list [""] . -/
theorem param_rejects_empty_segment_witness :
    matchFragments [[]] [.param (str "x")] {} = none :=
  param_rejects_empty_segment.1 [[]] [.param (str "x")] {} 0 (str "x") rfl rfl

/-- C8: deserialization fails with `NoParams` exactly when the named
parameter map is structurally absent (no `Param` value was ever inserted);
when the map is present the field-level projection runs and its errors are
wrapped and propagated (totally — the model cannot panic). -/
theorem deserialize_noparams_iff_absent {T : Type} (proj : SpecProjection T)
    (u : UriParams) :
    (isNoParamsError (u.deserialize proj) = true ↔ u.params = none)
  ∧ (∀ ps, u.params = some ps →
      u.deserialize proj =
        (proj ps).mapError fun m => ⟨PathDeserializationError.fieldError m⟩) := by
  rcases u with ⟨params, glob⟩
  cases params with
  | none =>
    refine ⟨⟨fun _ => rfl, fun _ => rfl⟩, ?_⟩
    intro ps h
    simp at h
  | some ps =>
    cases hp : proj ps with
    | ok v =>
      refine ⟨?_, ?_⟩
      · simp [UriParams.deserialize, isNoParamsError, hp, Except.mapError]
      · intro ps2 h
        injection h with h2
        subst h2
        simp [UriParams.deserialize, hp, Except.mapError]
    | error m =>
      refine ⟨?_, ?_⟩
      · simp [UriParams.deserialize, isNoParamsError, hp, Except.mapError]
      · intro ps2 h
        injection h with h2
        subst h2
        simp [UriParams.deserialize, hp, Except.mapError]

/-- C8 (witness): a present one-entry map projected by a length-counting
projection, and an absent map. -/
theorem deserialize_noparams_iff_absent_witness :
    UriParams.deserialize (fun ps => Except.ok ps.length)
      { params := some [(str "a", str "1")], glob := none }
      = Except.ok 1
  ∧ (isNoParamsError
      (UriParams.deserialize (fun ps => Except.ok ps.length)
        ({ params := none, glob := none } : UriParams)) = true ↔
      ({ params := none, glob := none } : UriParams).params = none) :=
  ⟨by
    rw [(deserialize_noparams_iff_absent (fun ps => Except.ok ps.length)
      { params := some [(str "a", str "1")], glob := none }).2
      [(str "a", str "1")] rfl]
    rfl,
   (deserialize_noparams_iff_absent _ _).1⟩

/-- C1 (counterexample): the claim says tuple authorization evaluates every
element with no short-circuiting on an early success; the tuple macro joins
the element calls with Rust's short-circuiting `||`, so when the first
element authorizes, a second (side-channel counter) element is never
evaluated, and the result differs from the spec's eager evaluation. -/
theorem tuple_eager_counterexample :
    tupleAuth2 (authorizedBasicNoFilter { username := str "a", password := str "p" })
        probeAuth { username := str "a", password := str "p" } {}
  ≠ specEagerTuple2 (authorizedBasicNoFilter { username := str "a", password := str "p" })
        probeAuth { username := str "a", password := str "p" } {} := by
  decide

/-- C1 (amended): the synchronous tuple authorization evaluates its elements
left to right and short-circuits at the first success — exactly the
sequential scan of the vector implementation: a three-element tuple equals
the scan over its element list, and when the first element authorizes the
result is that element's result, the later elements never being
evaluated. -/
theorem tuple_shortcircuit (t1 t2 t3 : AuthSync) (c : Basic) (e : Extensions) :
    tupleAuth3 t1 t2 t3 c e = vecAuth [t1, t2, t3] c e
  ∧ ∀ e', t1 c e = (true, e') → tupleAuth3 t1 t2 t3 c e = (true, e') := by
  constructor
  · rcases h1 : t1 c e with ⟨b1, e1⟩
    simp only [tupleAuth3, tupleAuth2, vecAuth, h1]
    cases b1
    · simp only [Bool.false_eq_true, if_false]
      rcases h2 : t2 c e1 with ⟨b2, e2⟩
      simp only [h2]
      cases b2
      · simp only [Bool.false_eq_true, if_false]
        rcases h3 : t3 c e2 with ⟨b3, e3⟩
        simp only [h3]
        cases b3 <;> simp [vecAuth]
      · simp
    · simp
  · intro e' h
    simp only [tupleAuth3, h]
    simp

/-- C1 (witness for the amended claim): a matching stored credential
followed by two probe elements. -/
theorem tuple_shortcircuit_witness :
    tupleAuth3 (authorizedBasicNoFilter { username := str "a", password := str "p" })
        probeAuth probeAuth { username := str "a", password := str "p" } {}
      = (true, Extensions.insertBasic {} { username := str "a", password := str "p" }) :=
  (tuple_shortcircuit _ _ _ _ _).2 _ (by decide)

/-- C2: the synchronous vector authorization scans its records in stored
order: the verdict is true exactly when some record's check authorizes the
credential, and when the list splits as failing prefix ++ first success ++
rest, the result is exactly the first successful record's result on the
incoming extensions — records after the first success are never evaluated
(the result does not depend on them) and only evaluated records have
written (the failing prefix wrote nothing). -/
theorem vec_first_success_scan (l : List PrimAuth) (c : Basic) (e : Extensions) :
    ((AuthorityRecord.vec l).run c e).1 = (l.any fun a => (a.run c e).1)
  ∧ ∀ (l₁ : List PrimAuth) (t : PrimAuth) (l₂ : List PrimAuth),
      l = l₁ ++ t :: l₂ →
      (∀ u ∈ l₁, (u.run c e).1 = false) →
      (t.run c e).1 = true →
      (AuthorityRecord.vec l).run c e = (true, (t.run c e).2) :=
  ⟨vecAuth_prim_fst l c e,
   fun _ _ l₂ hl hf ht => hl ▸ vecAuth_prim_first_success l₂ hf ht⟩

/-- C2 (witness): [foo/bar, Aladdin/open sesame, baz/qux] presented with
Aladdin's credentials: the first record fails, the second is the first
success, the third never runs. -/
theorem vec_first_success_scan_witness :
    (AuthorityRecord.vec
      [.pairNoFilter (str "foo") (str "bar"),
       .basicNoFilter { username := str "Aladdin", password := str "open sesame" },
       .pairNoFilter (str "baz") (str "qux")]).run
      { username := str "Aladdin", password := str "open sesame" } {}
    = (true, Extensions.insertBasic {}
        { username := str "Aladdin", password := str "open sesame" }) :=
  (vec_first_success_scan _ _ _).2
    [.pairNoFilter (str "foo") (str "bar")]
    (.basicNoFilter { username := str "Aladdin", password := str "open sesame" })
    [.pairNoFilter (str "baz") (str "qux")]
    rfl (by decide) (by decide)

/-- C4: under a filter configuration (a `UsernameConfig` type parameter), a
presented password that differs from the stored password is rejected before
the username is even parsed, for both the stored-`Basic` implementation and
the string-pair implementations. -/
theorem wrong_password_never_authorizes (delim : Char) (stored : Basic)
    (u p : Str) (credentials : Basic) (ext : Extensions) :
    (credentials.password ≠ stored.password →
      authorizedBasicWithFilter delim stored credentials ext = (false, ext))
  ∧ (credentials.password ≠ p →
      authorizedPairWithFilter delim u p credentials ext = (false, ext)) := by
  constructor
  · intro h
    simp only [authorizedBasicWithFilter, if_pos h]
  · intro h
    simp only [authorizedPairWithFilter, if_pos h]

/-- C4 (witness): stored john/secret with presented password "x", whose
username would parse under the filter grammar. -/
theorem wrong_password_never_authorizes_witness :
    authorizedBasicWithFilter '-' { username := str "john", password := str "secret" }
      { username := str "john-country=us", password := str "x" } {} = (false, {})
  ∧ authorizedPairWithFilter '-' (str "john") (str "secret")
      { username := str "john-country=us", password := str "x" } {} = (false, {}) :=
  ⟨(wrong_password_never_authorizes '-'
      { username := str "john", password := str "secret" }
      (str "john") (str "secret")
      { username := str "john-country=us", password := str "x" } {}).1 (by decide),
   (wrong_password_never_authorizes '-'
      { username := str "john", password := str "secret" }
      (str "john") (str "secret")
      { username := str "john-country=us", password := str "x" } {}).2 (by decide)⟩

/-- C10: every synchronous authorized check is atomic with respect to the
extensions: whenever a record (primitive, or a tuple or vector composition
of primitives) returns false, the extensions come back exactly as passed
in; insertions happen only on a call that returns true. -/
theorem authorized_false_preserves_extensions (r : AuthorityRecord) (c : Basic)
    (e e' : Extensions) (h : r.run c e = (false, e')) : e' = e := by
  cases r with
  | prim a => exact prim_run_false h
  | tuple l => exact vecAuth_prim_false h
  | vec l => exact vecAuth_prim_false h

/-- C10 (witness): a rejected credential against a tuple of two records
leaves the extensions untouched. -/
theorem authorized_false_preserves_extensions_witness :
    (AuthorityRecord.tuple
      [.pairNoFilter (str "foo") (str "bar"),
       .basicWithFilter '-' { username := str "john", password := str "secret" }]).run
      { username := str "nobody", password := str "nope" }
      (Extensions.insertProbe {} 7)
    = (false, Extensions.insertProbe {} 7)
  ∧ Extensions.insertProbe {} 7 = Extensions.insertProbe {} 7 :=
  ⟨by decide,
   authorized_false_preserves_extensions
    (.tuple [.pairNoFilter (str "foo") (str "bar"),
       .basicWithFilter '-' { username := str "john", password := str "secret" }])
    { username := str "nobody", password := str "nope" }
    (Extensions.insertProbe {} 7) (Extensions.insertProbe {} 7) (by decide)⟩

/-- Evaluation of `PathFilter::new` on the fragment-list branch: when the
trimmed pattern contains `*` and the (dead) single-empty-token branch does
not fire, the result is the classified token list. -/
theorem new_fragments_eval {p : Str}
    (hcontains : containsChar '*' (trimSlashes (rustTrim p)) = true)
    (hspecial : ¬((pathTokens p).length = 1 ∧ ((pathTokens p).headD []).isEmpty = true)) :
    PathFilter.new p = .fragmentList
      ((pathTokens p).enum.filterMap fun q => classifyToken (pathTokens p).length q.1 q.2) := by
  simp only [PathFilter.new, pathTokens, hcontains, Bool.or_true, Bool.not_true,
    Bool.false_eq_true, if_false]
  rw [if_neg]
  intro hc
  rw [Bool.and_eq_true, decide_eq_true_iff] at hc
  exact hspecial (by simpa [pathTokens] using hc)

/-- C9: a token "*" of the compiled pattern that is not in last position
becomes a `Literal` fragment with text "*" (and in last position a `Glob`),
and a `Literal` "*" fragment matches a path segment exactly when that
segment is literally "*" (ASCII-case-insensitive comparison fixes "*"). -/
theorem star_not_last_is_literal (p : Str) (i : Nat)
    (h : (pathTokens p)[i]? = some (str "*")) :
    (∃ fs, PathFilter.new p = .fragmentList fs ∧
      fs[i]? = some (if i + 1 = (pathTokens p).length then PathFragment.glob
        else PathFragment.literal (str "*")))
  ∧ ∀ (s : Str) (segs : List Str) (fragments : List PathFragment) (u : UriParams),
      matchFragments (s :: segs) (.literal (str "*") :: fragments) u =
        (if s = str "*" then matchFragments segs fragments u else none) := by
  constructor
  · have hmem : str "*" ∈ pathTokens p := List.getElem?_mem h
    have hmem2 : str "*" ∈ splitChar '/' (trimSlashes (rustTrim p)) :=
      (List.mem_filter.mp hmem).1
    have hstar : '*' ∈ trimSlashes (rustTrim p) :=
      mem_of_mem_splitChar hmem2 (by decide)
    have hcontains : containsChar '*' (trimSlashes (rustTrim p)) = true :=
      containsChar_eq_true_iff.mpr hstar
    have hlen : i < (pathTokens p).length := (List.getElem?_eq_some_iff.mp h).1
    have hspecial : ¬((pathTokens p).length = 1 ∧ ((pathTokens p).headD []).isEmpty = true) := by
      rintro ⟨h1, h2⟩
      have hi0 : i = 0 := by omega
      subst hi0
      rw [List.headD_eq_head?_getD, List.head?_eq_getElem?, h] at h2
      simp [str] at h2
    refine ⟨_, new_fragments_eval hcontains hspecial, ?_⟩
    rw [filterMap_getElem?_of_forall_isSome]
    · have henum : (pathTokens p).enum[i]? = ((pathTokens p)[i]?).map fun a => (i, a) := by
        simp [List.enum, List.getElem?_enumFrom]
      rw [henum, h]
      show classifyToken (pathTokens p).length i (str "*") = _
      simp only [classifyToken]
      rw [if_neg (by decide : ¬(str "*" = ([] : Str)))]
      rw [if_neg (by decide : ¬((str "*").headD ' ' = ':'))]
      by_cases hi : i + 1 = (pathTokens p).length
      · have hieq : i = (pathTokens p).length - 1 := by omega
        rw [if_pos (by simp [hieq]; decide), if_pos hi]
      · have hine : i ≠ (pathTokens p).length - 1 := by omega
        rw [if_neg (by simp [hine]), if_neg hi]
        decide
    · rintro ⟨j, s⟩ hjs
      have hs : s ∈ pathTokens p :=
        List.getElem?_mem (List.mk_mem_enum_iff_getElem?.mp hjs)
      have hne : s ≠ [] := by
        have := (List.mem_filter.mp hs).2
        simp only [Bool.not_eq_eq_eq_not, Bool.not_false, List.isEmpty_iff] at this
        simpa using this
      exact classifyToken_isSome hne
  · intro s segs fragments u
    simp only [matchFragments]
    by_cases hs : s = str "*"
    · subst hs
      rw [if_pos (by decide), if_pos rfl]
    · rw [if_neg (fun hc => hs (eqIgnoreAsciiCase_star.mp hc)), if_neg hs]

/-- C9 (witness): pattern "/a/*/b", whose token 1 is a non-final "*". -/
theorem star_not_last_is_literal_witness :
    (pathTokens (str "/a/*/b"))[1]? = some (str "*")
  ∧ ((∃ fs, PathFilter.new (str "/a/*/b") = .fragmentList fs ∧
      fs[1]? = some (if 1 + 1 = (pathTokens (str "/a/*/b")).length then PathFragment.glob
        else PathFragment.literal (str "*")))
  ∧ ∀ (s : Str) (segs : List Str) (fragments : List PathFragment) (u : UriParams),
      matchFragments (s :: segs) (.literal (str "*") :: fragments) u =
        (if s = str "*" then matchFragments segs fragments u else none)) :=
  ⟨by decide, star_not_last_is_literal (str "/a/*/b") 1 (by decide)⟩

end Rama
